import Mathlib

/-!
Verification of the Anthropic provider plugin
(`src/models/anthropic/models/llm/llm.py`).

This file gives a shallow embedding of the parts of the plugin that the
frozen claims are about:

* the streaming event normalizer `_handle_chat_generate_stream_response`
  (state machine over provider events, delta emission, the cross-turn
  reasoning cache, the usage reconciler);
* the non-streaming handler `_handle_chat_generate_response`
  (content collection and usage reconciliation);
* the request encoder `_convert_prompt_messages` (message-dict assembly,
  assistant-turn coalescing, reasoning-cache reinsertion);
* the capability-header assembly inside `_chat_generate`.

Machine integers are modeled as `Nat`.  The Python expressions
`int(x * 0.25)` and `int(x * 0.1)` applied to a nonnegative integer `x`
are modeled as `x / 4` and `x / 10` (`Nat` floor division): `0.25` is
exactly representable in binary floating point, and for `0.1` the
product of the nearest double with any integer below `2 ^ 53` rounds to
a value whose truncation agrees with floor division by ten.
-/

namespace Anthropic

/-- Python truthiness of an optional string value: `None` and the empty
string are falsy, every other string is truthy. -/
def strTruthy : Option String → Bool
  | none => false
  | some s => s != ""

/-- Replace the first element satisfying `p` by its image under `f`,
mirroring a Python `for ... if ...: ...; break` loop over a list. -/
def updateFirst {α : Type} (p : α → Bool) (f : α → α) : List α → List α
  | [] => []
  | x :: xs => if p x then f x :: xs else x :: updateFirst p f xs

/-- Replace the last element of a list by its image under `f`, mirroring a
Python guarded `xs[-1] = f(xs[-1])` (no effect on an empty list, where the
source guards with `if xs:`). -/
def updateLast {α : Type} (f : α → α) : List α → List α
  | [] => []
  | [x] => [f x]
  | x :: y :: xs => x :: updateLast f (y :: xs)

/-- A recorded tool invocation (`AssistantPromptMessage.ToolCall` with its
nested function record flattened: `id`, `function.name`,
`function.arguments`). -/
structure ToolCall where
  id : String
  name : String
  arguments : String
deriving DecidableEq, Repr

/-- A visible reasoning block as accumulated by the stream handler:
the dict `\x7b"type": "thinking", "thinking": ..., "signature": ...\x7d`
with the constant tag dropped. -/
structure ThinkingBlock where
  thinking : String
  signature : String
deriving DecidableEq, Repr

/-- The cross-turn reasoning cache: the session attributes
`previous_thinking_blocks` and `previous_redacted_thinking_blocks`.
Every stored redacted entry is the constant dict
`\x7b"type": "redacted_thinking"\x7d`, so the redacted list is modeled by
its length. -/
structure ReasoningCache where
  previous_thinking_blocks : List ThinkingBlock
  previous_redacted_thinking_blocks : Nat
deriving DecidableEq, Repr

/-- The empty reasoning cache (both session attributes reset to `[]`). -/
def emptyCache : ReasoningCache := ⟨[], 0⟩

/-- The pair of token counts handed to `_calc_response_usage`: the billed
(cache-adjusted) prompt count and the completion count. -/
structure BilledUsage where
  prompt_tokens : Nat
  completion_tokens : Nat
deriving DecidableEq, Repr

/-- The payload of a `ContentBlockDeltaEvent`, distinguished exactly the
way the handler distinguishes it: by `hasattr` probes for `text`,
`partial_json`, `thinking` and `signature` and by the `type` tag
`"redacted_thinking"`.  `textDelta none` models a present `text`
attribute holding `None` (the handler substitutes `""`), likewise for
`thinkingDelta`; `inputJsonDelta none` models a missing `partial_json`
attribute. -/
inductive DeltaPayload
  | textDelta (text : Option String)
  | inputJsonDelta (pj : Option String)
  | thinkingDelta (thinking : Option String)
  | signatureDelta (signature : String)
  | redactedThinkingDelta
deriving DecidableEq, Repr

/-- The `content_block` carried by a `content_block_start` event, as probed
by the handler: the `type` tag and, for `tool_use`, the optional `name`
and `id` attributes (`getattr(..., None)`). -/
inductive BlockStartInfo
  | toolUse (name id : Option String)
  | thinking
  | redactedThinking
  | textBlock
  | otherBlock
deriving DecidableEq, Repr

/-- A provider stream event, restricted to the fields the handler reads.
Optional `Nat` fields model `hasattr` probes for
`cache_creation_input_tokens` / `cache_read_input_tokens`. -/
inductive StreamEvent
  | messageStart (modelName : String) (input_tokens : Nat)
      (cache_creation cache_read : Option Nat)
  | blockStart (info : BlockStartInfo)
  | blockDelta (index : Nat) (payload : DeltaPayload)
  | messageDelta (output_tokens : Nat) (stop_reason : Option String)
      (cache_creation cache_read : Option Nat)
  | messageStop
  | otherEvent
deriving DecidableEq, Repr

/-- A canonical delta yielded by the stream handler: either a content
chunk (an `LLMResultChunk` whose delta message carries plain text,
including the `<think>` boundary markers) or the terminal chunk carrying
the finalized tool-call list, the finish reason, and the billed usage. -/
inductive Delta
  | content (index : Nat) (text : String)
  | final (index : Nat) (tool_calls : List ToolCall)
      (finish_reason : Option String) (usage : BilledUsage)
deriving DecidableEq, Repr

/-- The local variables of `_handle_chat_generate_stream_response`,
exactly the ones initialized before the event loop. -/
structure StreamState where
  full_assistant_content : String
  return_model : String
  input_tokens : Nat
  output_tokens : Nat
  finish_reason : Option String
  index : Nat
  tool_calls : List ToolCall
  current_block_type : Option String
  current_block_index : Option Nat
  current_tool_name : Option String
  current_tool_id : Option String
  current_tool_params : String
  current_thinking_blocks : List ThinkingBlock
  current_redacted_thinking_blocks : Nat
  cache_creation_input_tokens : Nat
  cache_read_input_tokens : Nat
deriving DecidableEq, Repr

/-- The initial local state of the stream handler. -/
def initStreamState : StreamState :=
  ⟨"", "", 0, 0, none, 0, [], none, none, none, none, "", [], 0, 0, 0⟩

/-- The cache-economics adjustment applied to the raw prompt-token count
(identical blocks appear in `_handle_chat_generate_response` and in the
`MessageStopEvent` branch of the stream handler): a cache write is billed
at the full count plus a 25 percent premium, a cache read at 10 percent
of the count. -/
def cacheAdjust (prompt_tokens cache_creation cache_read : Nat) : Nat :=
  let t :=
    if 0 < cache_creation then
      prompt_tokens + (cache_creation + cache_creation / 4)
    else prompt_tokens
  if 0 < cache_read then t + cache_read / 10 else t

/-- The fixed placeholder forwarded for a redacted-thinking delta. -/
def redacted_notice : String :=
  "[Some of Claude\x27s thinking was automatically encrypted for safety reasons]"

/-- The opening reasoning boundary marker. -/
def think_open : String := "<think>\n"

/-- The closing reasoning boundary marker. -/
def think_close : String := "\n</think>"

/-- The finalization applied to every recorded tool call at stream end:
an empty argument buffer becomes the empty-object literal. -/
def finalize_tool_call (tc : ToolCall) : ToolCall :=
  if tc.arguments = "" then { tc with arguments := "\x7b\x7d" } else tc

/-- The guard of the defensive synthesis branch in the `MessageStopEvent`
handler: `current_tool_name and current_tool_id and current_tool_params
and not tool_calls`. -/
def fallback_condition (s : StreamState) : Bool :=
  strTruthy s.current_tool_name && strTruthy s.current_tool_id
    && (s.current_tool_params != "") && s.tool_calls.isEmpty

/-- One iteration of the event loop of
`_handle_chat_generate_stream_response`: consumes one provider event and
returns the updated session cache, the updated local state, and the
deltas yielded while handling this event. -/
def handleStreamEvent (c : ReasoningCache) (s : StreamState) :
    StreamEvent → ReasoningCache × StreamState × List Delta
  | .messageStart m itok cw cr =>
      (c, { s with
              return_model := m
              input_tokens := itok
              cache_creation_input_tokens := cw.getD s.cache_creation_input_tokens
              cache_read_input_tokens := cr.getD s.cache_read_input_tokens }, [])
  | .blockStart info =>
      match info with
      | .toolUse nm tid =>
          let s1 := { s with current_tool_name := nm, current_tool_id := tid }
          if strTruthy nm && strTruthy tid then
            (c, { s1 with
                    tool_calls := s1.tool_calls ++ [⟨tid.getD "", nm.getD "", ""⟩] }, [])
          else (c, s1, [])
      | .thinking =>
          (c, { s with
                  current_thinking_blocks := s.current_thinking_blocks ++ [⟨"", ""⟩] }, [])
      | .redactedThinking =>
          (c, { s with
                  current_redacted_thinking_blocks :=
                    s.current_redacted_thinking_blocks + 1 }, [])
      | _ => (c, s, [])
  | .blockDelta idx payload =>
      -- stage 1: the leading `input_json_delta` block (argument accumulation)
      let s1 : StreamState :=
        match payload with
        | .inputJsonDelta (some p) =>
            if p != "" then
              let params := s.current_tool_params ++ p
              let tcs :=
                match s.current_tool_id with
                | some tid =>
                    updateFirst (fun tc => tc.id == tid)
                      (fun tc => { tc with arguments := params }) s.tool_calls
                | none => s.tool_calls
              { s with current_tool_params := params, tool_calls := tcs }
            else s
        | _ => s
      -- stage 2: the `chunk.index != current_block_index` block
      let stage2 : StreamState × List Delta :=
        if some idx ≠ s1.current_block_index then
          let closes : List Delta :=
            match s1.current_block_index with
            | some i =>
                if s1.current_block_type == some "thinking" then
                  [.content i think_close]
                else []
            | none => []
          let s2 := { s1 with current_block_index := some idx }
          match payload with
          | .thinkingDelta _ =>
              ({ s2 with current_block_type := some "thinking" },
               closes ++ [.content idx think_open])
          | .textDelta _ =>
              ({ s2 with current_block_type := some "text" }, closes)
          | .redactedThinkingDelta =>
              ({ s2 with current_block_type := some "redacted_thinking" },
               closes ++ [.content idx think_open])
          | _ => (s2, closes)
        else (s1, [])
      let s2 := stage2.1
      -- stage 3: the content dispatch chain
      let stage3 : StreamState × List Delta :=
        match payload with
        | .thinkingDelta t =>
            let tt := t.getD ""
            ({ s2 with
                 full_assistant_content := s2.full_assistant_content ++ tt
                 current_thinking_blocks :=
                   updateLast (fun b => { b with thinking := b.thinking ++ tt })
                     s2.current_thinking_blocks
                 index := idx }, [.content idx tt])
        | .signatureDelta sg =>
            ({ s2 with
                 current_thinking_blocks :=
                   updateLast (fun b => { b with signature := sg })
                     s2.current_thinking_blocks }, [])
        | .redactedThinkingDelta =>
            ({ s2 with
                 full_assistant_content := s2.full_assistant_content ++ redacted_notice
                 index := idx }, [.content idx redacted_notice])
        | .textDelta t =>
            let tt := t.getD ""
            ({ s2 with
                 full_assistant_content := s2.full_assistant_content ++ tt
                 index := idx }, [.content idx tt])
        | .inputJsonDelta _ => (s2, [])
      (c, stage3.1, stage2.2 ++ stage3.2)
  | .messageDelta otok sr cw cr =>
      (c, { s with
              output_tokens := otok
              finish_reason := sr
              cache_creation_input_tokens := cw.getD s.cache_creation_input_tokens
              cache_read_input_tokens := cr.getD s.cache_read_input_tokens }, [])
  | .messageStop =>
      let closes : List Delta :=
        match s.current_block_index with
        | some i =>
            if s.current_block_type == some "thinking" then
              [.content i think_close]
            else []
        | none => []
      let tcs1 :=
        if fallback_condition s then
          s.tool_calls ++
            [⟨s.current_tool_id.getD "", s.current_tool_name.getD "",
              s.current_tool_params⟩]
        else s.tool_calls
      let c1 : ReasoningCache :=
        ⟨if !tcs1.isEmpty && !s.current_thinking_blocks.isEmpty then
            s.current_thinking_blocks
          else c.previous_thinking_blocks,
         if !tcs1.isEmpty && (s.current_redacted_thinking_blocks != 0) then
            s.current_redacted_thinking_blocks
          else c.previous_redacted_thinking_blocks⟩
      let usage : BilledUsage :=
        ⟨cacheAdjust s.input_tokens s.cache_creation_input_tokens
            s.cache_read_input_tokens,
         s.output_tokens⟩
      let tcs2 := tcs1.map finalize_tool_call
      (c1, { s with tool_calls := tcs2 },
       closes ++ [.final (s.index + 1) tcs2 s.finish_reason usage])
  | .otherEvent => (c, s, [])

/-- The event loop: folds `handleStreamEvent` over the event list,
accumulating yielded deltas in order. -/
def streamLoop : ReasoningCache → StreamState → List Delta → List StreamEvent →
    ReasoningCache × StreamState × List Delta
  | c, s, ds, [] => (c, s, ds)
  | c, s, ds, e :: es =>
      let r := handleStreamEvent c s e
      streamLoop r.1 r.2.1 (ds ++ r.2.2) es

/-- `_handle_chat_generate_stream_response`, as a function of the session
cache at entry, of whether the prompt contains a `ToolPromptMessage`
(the prologue clears the cache when it does not), and of the consumed
event list.  Consuming a prefix of the provider stream corresponds to
applying this function to that prefix. -/
def handle_chat_generate_stream_response (c : ReasoningCache)
    (has_tool_prompt : Bool) (events : List StreamEvent) :
    ReasoningCache × StreamState × List Delta :=
  let c0 := if has_tool_prompt then c else emptyCache
  streamLoop c0 initStreamState [] events

/-- The usage records carried by the terminal deltas of a delta list. -/
def finalUsages (ds : List Delta) : List BilledUsage :=
  ds.filterMap fun d =>
    match d with
    | .final _ _ _ u => some u
    | _ => none

/-- The tool-call lists carried by the terminal deltas of a delta list. -/
def finalToolCallLists (ds : List Delta) : List (List ToolCall) :=
  ds.filterMap fun d =>
    match d with
    | .final _ tcs _ _ => some tcs
    | _ => none

/-! ## Request encoder (`_convert_prompt_messages`) -/

/-- A canonical prompt message, restricted to the constructors and fields
the encoder reads.  `userParts` models a list-content user message whose
parts are text (image and document parts are fetched and validated
externally and only add further sub-entries inside the same single
user-role dict).  An assistant tool call carries its arguments as the
JSON text that `json.loads` would parse. -/
inductive PromptMsg
  | system (content : String)
  | user (content : String)
  | userParts (texts : List String)
  | assistant (content : String) (tool_calls : List ToolCall)
  | tool (content : String) (tool_call_id : String)
deriving DecidableEq, Repr

/-- `isinstance(msg, ToolPromptMessage)`. -/
def isToolPrompt : PromptMsg → Bool
  | .tool _ _ => true
  | _ => false

/-- `isinstance(msg, AssistantPromptMessage)`. -/
def isAssistantPrompt : PromptMsg → Bool
  | .assistant _ _ => true
  | _ => false

/-- One element of an encoded message's content list. -/
inductive ContentItem
  | textItem (text : String) (cached : Bool)
  | toolUseItem (id name argumentsJson : String)
  | toolResultItem (tool_use_id content : String) (cached : Bool)
  | thinkingItem (thinking signature : String)
  | redactedThinkingItem
deriving DecidableEq, Repr

/-- The content of an encoded message dict: either a plain string or a
list of typed items. -/
inductive EncodedContent
  | str (s : String)
  | items (l : List ContentItem)
deriving DecidableEq, Repr

/-- One entry of the encoded `messages` payload: a role plus content. -/
structure EncodedMsg where
  role : String
  content : EncodedContent
deriving DecidableEq, Repr

/-- The inline cache marker `<cache>`, as a character list. -/
def cacheMarker : List Char := ['<', 'c', 'a', 'c', 'h', 'e', '>']

/-- Whether the first argument is an initial segment of the second. -/
def isInitialSegment {α : Type} [DecidableEq α] : List α → List α → Bool
  | [], _ => true
  | _ :: _, [] => false
  | p :: ps, x :: xs => if p = x then isInitialSegment ps xs else false

/-- Whether `cacheMarker` occurs anywhere in `l`. -/
def hasMarker : List Char → Bool
  | [] => false
  | x :: xs => isInitialSegment cacheMarker (x :: xs) || hasMarker xs

/-- Remove every occurrence of `cacheMarker` from `l`, scanning left to
right.  The fuel argument (instantiated with the list length) only makes
the recursion structural; the marker is nonempty, so a match always
consumes at least one character. -/
def removeMarkerAux : List Char → Nat → List Char
  | l, 0 => l
  | [], _ + 1 => []
  | x :: xs, fuel + 1 =>
      if isInitialSegment cacheMarker (x :: xs) then
        removeMarkerAux (List.drop cacheMarker.length (x :: xs)) fuel
      else x :: removeMarkerAux xs fuel

/-- `"<cache>" in s`. -/
def containsCache (s : String) : Bool := hasMarker s.data

/-- `s.replace("<cache>", "")`: remove every occurrence of the marker. -/
def stripCache (s : String) : String := ⟨removeMarkerAux s.data s.data.length⟩

/-- Encode one text part, honoring the inline cache marker. -/
def textItemOf (s : String) : ContentItem :=
  if containsCache s then .textItem (stripCache s) true else .textItem s false

/-- The reasoning-cache items prepended to an assistant turn's content
when the request contains a `ToolPromptMessage` (lines 922 to 926):
thinking blocks first, then redacted placeholders. -/
def cacheReinsertItems (c : ReasoningCache) (hasTool : Bool) : List ContentItem :=
  (if !c.previous_thinking_blocks.isEmpty && hasTool then
      c.previous_thinking_blocks.map fun b => ContentItem.thinkingItem b.thinking b.signature
    else []) ++
  (if (c.previous_redacted_thinking_blocks != 0) && hasTool then
      List.replicate c.previous_redacted_thinking_blocks ContentItem.redactedThinkingItem
    else [])

/-- The full content list built for one assistant message: the reinserted
cache items followed by either the tool-call records or (else-if) the
text content when nonempty. -/
def assistantItems (c : ReasoningCache) (hasTool : Bool) (content : String)
    (tcs : List ToolCall) : List ContentItem :=
  cacheReinsertItems c hasTool ++
    (if !tcs.isEmpty then
        tcs.map fun tc => ContentItem.toolUseItem tc.id tc.name tc.arguments
      else if content != "" then [textItemOf content] else [])

/-- `prompt_message_dicts[-1]["content"].extend(new)`.  Assistant entries
always carry an item list, so the string case never arises at the single
call site (which is guarded by the previous role being assistant). -/
def extendItems : EncodedContent → List ContentItem → EncodedContent
  | .items l, new => .items (l ++ new)
  | .str s, _ => .str s

/-- One iteration of the encoding loop over prompt messages (the second
loop of `_convert_prompt_messages`, which builds `prompt_message_dicts`;
system messages are consumed by the first loop and contribute no dict). -/
def convStep (c : ReasoningCache) (hasTool : Bool) (acc : List EncodedMsg) :
    PromptMsg → List EncodedMsg
  | .system _ => acc
  | .user s =>
      acc ++ [⟨"user",
        if containsCache s then .items [.textItem (stripCache s) true] else .str s⟩]
  | .userParts ts => acc ++ [⟨"user", .items (ts.map textItemOf)⟩]
  | .assistant content tcs =>
      let items := assistantItems c hasTool content tcs
      match acc.getLast? with
      | some last =>
          if last.role = "assistant" then
            acc.dropLast ++ [⟨"assistant", extendItems last.content items⟩]
          else acc ++ [⟨"assistant", .items items⟩]
      | none => acc ++ [⟨"assistant", .items items⟩]
  | .tool content tid =>
      acc ++ [⟨"user", .items
        [if containsCache content then .toolResultItem tid (stripCache content) true
         else .toolResultItem tid content false]⟩]

/-- The `prompt_message_dicts` half of `_convert_prompt_messages`: encode
the non-system messages in order.  The reinsertion guard
`any(isinstance(msg, ToolPromptMessage) for msg in prompt_messages)` is
evaluated over the whole input list. -/
def convert_prompt_messages (c : ReasoningCache) (msgs : List PromptMsg) :
    List EncodedMsg :=
  msgs.foldl (convStep c (msgs.any isToolPrompt)) []

/-- The encoding step of `_chat_generate` relevant to the reasoning cache:
line 151 converts the prompt messages (with the cache still populated),
then lines 171 to 173 clear the cache when the request contains no
`ToolPromptMessage`.  Returns the encoded payload and the cache left for
the rest of the call. -/
def chat_generate_prepare (c : ReasoningCache) (msgs : List PromptMsg) :
    List EncodedMsg × ReasoningCache :=
  (convert_prompt_messages c msgs, if msgs.any isToolPrompt then c else emptyCache)

/-! ## Non-streaming handler (`_handle_chat_generate_response`) -/

/-- One content block of a complete (non-streamed) response. -/
inductive RespBlock
  | thinkingB (thinking signature : String)
  | redactedThinkingB
  | textB (text : String)
  | toolUseB (id name argumentsJson : String)
  | otherB
deriving DecidableEq, Repr

/-- The assistant message assembled by the non-streaming handler. -/
structure AssistantMsg where
  content : String
  tool_calls : List ToolCall
deriving DecidableEq, Repr

/-- One iteration of the content loop of `_handle_chat_generate_response`
(lines 432 to 449): a thinking or redacted-thinking block is appended to
the session cache, a text block extends the assistant content, a tool-use
block appends a tool-call record. -/
def respStep (st : ReasoningCache × AssistantMsg) (b : RespBlock) :
    ReasoningCache × AssistantMsg :=
  match b with
  | .thinkingB t sg =>
      (⟨st.1.previous_thinking_blocks ++ [⟨t, sg⟩],
        st.1.previous_redacted_thinking_blocks⟩, st.2)
  | .redactedThinkingB =>
      (⟨st.1.previous_thinking_blocks,
        st.1.previous_redacted_thinking_blocks + 1⟩, st.2)
  | .textB t => (st.1, ⟨st.2.content ++ t, st.2.tool_calls⟩)
  | .toolUseB i n a => (st.1, ⟨st.2.content, st.2.tool_calls ++ [⟨i, n, a⟩]⟩)
  | .otherB => st

/-- The content-processing part of `_handle_chat_generate_response`
(lines 427 to 449): the session cache is reset to empty first (lines 427
to 428, discarding the entry cache `c`), then every content block of the
response is folded in with `respStep` — thinking and redacted-thinking
blocks are stored in the cache unconditionally. -/
def handle_chat_generate_response (c : ReasoningCache) (blocks : List RespBlock) :
    ReasoningCache × AssistantMsg :=
  let _ := c
  blocks.foldl respStep (emptyCache, ⟨"", []⟩)

/-- The thinking blocks of a complete response, in order. -/
def response_thinking_blocks (blocks : List RespBlock) : List ThinkingBlock :=
  blocks.filterMap fun b =>
    match b with
    | .thinkingB t sg => some ⟨t, sg⟩
    | _ => none

/-- The number of redacted-thinking blocks of a complete response. -/
def response_redacted_count (blocks : List RespBlock) : Nat :=
  blocks.countP fun b =>
    match b with
    | .redactedThinkingB => true
    | _ => false

/-- The usage computation of `_handle_chat_generate_response`
(lines 452 to 496).  `est_prompt` and `est_completion` model the values
`get_num_tokens` would return: the Python `usage.input_tokens or
get_num_tokens(...)` falls back to the estimate when the raw count is
zero (and likewise for the output count).  Cache metrics missing from
the response usage default to zero. -/
def nonstream_usage (input_tokens output_tokens : Nat)
    (cache_creation cache_read : Option Nat)
    (est_prompt est_completion : Nat) : BilledUsage :=
  let cw := cache_creation.getD 0
  let cr := cache_read.getD 0
  let prompt := if input_tokens ≠ 0 then input_tokens else est_prompt
  let completion := if output_tokens ≠ 0 then output_tokens else est_completion
  ⟨cacheAdjust prompt cw cr, completion⟩

/-! ## Capability headers (`_chat_generate`, lines 132 to 169) -/

/-- Append a token to the combined `anthropic-beta` header value:
`extra_headers["anthropic-beta"] += "," + tok` when the key exists, else
`extra_headers["anthropic-beta"] = tok`. -/
def appendBeta : Option String → String → Option String
  | none, tok => some tok
  | some s, tok => some (s ++ "," ++ tok)

/-- The `anthropic-beta` header value assembled by `_chat_generate`, in
source order: extended output appends, token-efficient tools appends,
the long-output branch for `claude-3-5-sonnet-20240620` with
`max_tokens > 4096` assigns (overwriting any existing value), and the
multi-document branch appends.  `hasDoc` is the source's scan for a
`DocumentPromptMessageContent` part among the prompt messages. -/
def computeBetaHeader (model : String) (extended_output hasTools : Bool)
    (maxTokens : Nat) (hasDoc : Bool) : Option String :=
  let h : Option String := none
  let h := if extended_output then appendBeta h "output-128k-2025-02-19" else h
  let h :=
    if model == "claude-3-7-sonnet-20250219" && hasTools then
      appendBeta h "token-efficient-tools-2025-02-19"
    else h
  let h :=
    if model == "claude-3-5-sonnet-20240620" && decide (4096 < maxTokens) then
      some "max-tokens-3-5-sonnet-2024-07-15"
    else h
  if hasDoc then appendBeta h "pdfs-2024-09-25" else h

/-- Modelled from the spec: the header value claim C7 describes, in which
every required capability contributes its token additively.  This is the
claim-side reference the code is compared against. -/
def specBetaTokens (model : String) (extended_output hasTools : Bool)
    (maxTokens : Nat) (hasDoc : Bool) : List String :=
  (if extended_output then ["output-128k-2025-02-19"] else []) ++
  (if model == "claude-3-7-sonnet-20250219" && hasTools then
      ["token-efficient-tools-2025-02-19"] else []) ++
  (if model == "claude-3-5-sonnet-20240620" && decide (4096 < maxTokens) then
      ["max-tokens-3-5-sonnet-2024-07-15"] else []) ++
  (if hasDoc then ["pdfs-2024-09-25"] else [])

/-- Join a token list into the combined header value (absent when no
feature is required). -/
def joinBeta : List String → Option String
  | [] => none
  | l => some (String.intercalate "," l)

/-! ## Helper lemmas -/

theorem cacheAdjust_eq (p w r : Nat) :
    cacheAdjust p w r = p + (w + w / 4) + r / 10 := by
  unfold cacheAdjust
  rcases Nat.eq_zero_or_pos w with hw | hw <;>
    rcases Nat.eq_zero_or_pos r with hr | hr <;> simp [hw, hr]

theorem isInitialSegment_append_self {α : Type} [DecidableEq α] (p t : List α) :
    isInitialSegment p (p ++ t) = true := by
  induction p with
  | nil => rfl
  | cons x xs ih => simpa [isInitialSegment] using ih

theorem isInitialSegment_mono {α : Type} [DecidableEq α] {p l : List α} (t : List α)
    (h : isInitialSegment p l = true) : isInitialSegment p (l ++ t) = true := by
  induction p generalizing l with
  | nil => rfl
  | cons x xs ih =>
    cases l with
    | nil => simp [isInitialSegment] at h
    | cons y ys =>
      unfold isInitialSegment at h ⊢
      split at h
      · simpa [*] using ih h
      · exact absurd h (by simp)

theorem finalize_arguments_ne (tc : ToolCall) :
    (finalize_tool_call tc).arguments ≠ "" := by
  unfold finalize_tool_call
  split
  · simp
  · next hne => exact fun hc => hne hc

theorem updateFirst_length {α : Type} (p : α → Bool) (f : α → α) (l : List α) :
    (updateFirst p f l).length = l.length := by
  induction l with
  | nil => rfl
  | cons x xs ih => unfold updateFirst; split <;> simp [ih]

theorem updateFirst_ne_nil {α : Type} (p : α → Bool) (f : α → α) {l : List α}
    (h : l ≠ []) : updateFirst p f l ≠ [] := by
  intro h0
  apply h
  have hlen := updateFirst_length p f l
  rw [h0] at hlen
  exact List.length_eq_zero.mp hlen.symm

theorem handleStreamEvent_cache_eq (c : ReasoningCache) (s : StreamState)
    (e : StreamEvent) (he : e ≠ .messageStop) : (handleStreamEvent c s e).1 = c := by
  cases e with
  | messageStart _ _ _ _ => rfl
  | blockStart info =>
      cases info <;> simp only [handleStreamEvent] <;> first | rfl | (split <;> rfl)
  | blockDelta idx payload => rfl
  | messageDelta _ _ _ _ => rfl
  | messageStop => exact absurd rfl he
  | otherEvent => rfl

theorem streamLoop_cache_eq (events : List StreamEvent) (c : ReasoningCache)
    (s : StreamState) (ds : List Delta)
    (h : ∀ e ∈ events, e ≠ StreamEvent.messageStop) :
    (streamLoop c s ds events).1 = c := by
  induction events generalizing c s ds with
  | nil => rfl
  | cons e es ih =>
      have h1 : (handleStreamEvent c s e).1 = c :=
        handleStreamEvent_cache_eq c s e (h e (by simp))
      show (streamLoop (handleStreamEvent c s e).1 (handleStreamEvent c s e).2.1
        (ds ++ (handleStreamEvent c s e).2.2) es).1 = c
      rw [h1]
      exact ih _ _ _ fun e' he' => h e' (by simp [he'])

theorem good_step (c : ReasoningCache) (s : StreamState) (e : StreamEvent)
    (h : (strTruthy s.current_tool_name && strTruthy s.current_tool_id) = true →
      s.tool_calls ≠ []) :
    (strTruthy (handleStreamEvent c s e).2.1.current_tool_name &&
        strTruthy (handleStreamEvent c s e).2.1.current_tool_id) = true →
      (handleStreamEvent c s e).2.1.tool_calls ≠ [] := by
  obtain ⟨fac, rm, itok, otok, fr, ix, tcs, cbt, cbi, ctn, cti, ctp, ctb, crb, ccit, crit⟩ := s
  simp only at h
  cases e with
  | messageStart _ _ _ _ => exact h
  | messageDelta _ _ _ _ => exact h
  | otherEvent => exact h
  | blockStart info =>
      cases info with
      | toolUse nm tid =>
          simp only [handleStreamEvent]
          split
          · intro _; simp
          · intro h2; exact absurd h2 (by assumption)
      | thinking => exact h
      | redactedThinking => exact h
      | textBlock => exact h
      | otherBlock => exact h
  | blockDelta idx payload =>
      cases payload with
      | inputJsonDelta pj =>
          simp only [handleStreamEvent]
          repeat' split
          all_goals
            first
              | exact h
              | (intro h2; exact updateFirst_ne_nil _ _ (h h2))
      | textDelta t =>
          simp only [handleStreamEvent]; repeat' split
          all_goals exact h
      | thinkingDelta t =>
          simp only [handleStreamEvent]; repeat' split
          all_goals exact h
      | signatureDelta sg =>
          simp only [handleStreamEvent]; repeat' split
          all_goals exact h
      | redactedThinkingDelta =>
          simp only [handleStreamEvent]; repeat' split
          all_goals exact h
  | messageStop =>
      simp only [handleStreamEvent]
      repeat' split
      all_goals (intro h2; simp [h h2])

theorem good_loop (events : List StreamEvent) (c : ReasoningCache) (s : StreamState)
    (ds : List Delta)
    (h : (strTruthy s.current_tool_name && strTruthy s.current_tool_id) = true →
      s.tool_calls ≠ []) :
    (strTruthy (streamLoop c s ds events).2.1.current_tool_name &&
        strTruthy (streamLoop c s ds events).2.1.current_tool_id) = true →
      (streamLoop c s ds events).2.1.tool_calls ≠ [] := by
  induction events generalizing c s ds with
  | nil => exact h
  | cons e es ih => exact ih _ _ _ (good_step c s e h)

theorem good_init :
    (strTruthy initStreamState.current_tool_name &&
        strTruthy initStreamState.current_tool_id) = true →
      initStreamState.tool_calls ≠ [] := by
  intro h2
  simp [initStreamState, strTruthy] at h2

theorem fallback_condition_false_of_good (s : StreamState)
    (h : (strTruthy s.current_tool_name && strTruthy s.current_tool_id) = true →
      s.tool_calls ≠ []) :
    fallback_condition s = false := by
  unfold fallback_condition
  cases hab : (strTruthy s.current_tool_name && strTruthy s.current_tool_id) with
  | false => simp [← Bool.and_assoc, hab]
  | true =>
      have h3 := h hab
      cases hl : s.tool_calls with
      | nil => exact absurd hl h3
      | cons x xs => simp [hl]

theorem stop_toolcalls (c : ReasoningCache) (s : StreamState)
    (hf : fallback_condition s = false) :
    finalToolCallLists (handleStreamEvent c s .messageStop).2.2 =
      [s.tool_calls.map finalize_tool_call] := by
  obtain ⟨fac, rm, itok, otok, fr, ix, tcs, cbt, cbi, ctn, cti, ctp, ctb, crb, ccit, crit⟩ := s
  simp only [handleStreamEvent, hf]
  repeat' split
  all_goals simp_all [finalToolCallLists]

theorem stop_usages (c : ReasoningCache) (s : StreamState) :
    finalUsages (handleStreamEvent c s .messageStop).2.2 =
      [⟨cacheAdjust s.input_tokens s.cache_creation_input_tokens
          s.cache_read_input_tokens, s.output_tokens⟩] := by
  obtain ⟨fac, rm, itok, otok, fr, ix, tcs, cbt, cbi, ctn, cti, ctp, ctb, crb, ccit, crit⟩ := s
  simp only [handleStreamEvent]
  repeat' split
  all_goals simp [finalUsages]

theorem final_mem_stop (c : ReasoningCache) (s : StreamState)
    (i : Nat) (tcs : List ToolCall) (r : Option String) (u : BilledUsage)
    (h : Delta.final i tcs r u ∈ (handleStreamEvent c s .messageStop).2.2) :
    ∃ pre : List ToolCall, tcs = pre.map finalize_tool_call := by
  obtain ⟨fac, rm, itok, otok, fr, ix, tcs0, cbt, cbi, ctn, cti, ctp, ctb, crb, ccit, crit⟩ := s
  simp only [handleStreamEvent] at h
  repeat' split at h
  all_goals
    simp only [List.mem_append, List.mem_singleton, List.mem_cons,
      List.not_mem_nil, or_false, false_or, Delta.final.injEq] at h
  all_goals
    first
      | (obtain ⟨h1, h2, h3, h4⟩ := h; exact ⟨_, h2⟩)
      | (rcases h with h | ⟨h1, h2, h3, h4⟩
         · exact Delta.noConfusion h
         · exact ⟨_, h2⟩)

theorem final_mem_step (c : ReasoningCache) (s : StreamState) (e : StreamEvent)
    (i : Nat) (tcs : List ToolCall) (r : Option String) (u : BilledUsage)
    (h : Delta.final i tcs r u ∈ (handleStreamEvent c s e).2.2) :
    ∃ pre : List ToolCall, tcs = pre.map finalize_tool_call := by
  cases e with
  | messageStop => exact final_mem_stop c s i tcs r u h
  | messageStart _ _ _ _ => simp [handleStreamEvent] at h
  | messageDelta _ _ _ _ => simp [handleStreamEvent] at h
  | otherEvent => simp [handleStreamEvent] at h
  | blockStart info =>
      obtain ⟨fac, rm, itok, otok, fr, ix, tcs0, cbt, cbi, ctn, cti, ctp, ctb, crb, ccit, crit⟩ := s
      cases info <;> simp only [handleStreamEvent] at h <;>
        (repeat' split at h) <;> simp_all
  | blockDelta idx payload =>
      obtain ⟨fac, rm, itok, otok, fr, ix, tcs0, cbt, cbi, ctn, cti, ctp, ctb, crb, ccit, crit⟩ := s
      cases payload <;> simp only [handleStreamEvent] at h <;>
        (repeat' split at h) <;> simp_all

theorem streamLoop_final_mem (events : List StreamEvent) (c : ReasoningCache)
    (s : StreamState) (ds : List Delta)
    (hds : ∀ i tcs r u, Delta.final i tcs r u ∈ ds →
      ∃ pre : List ToolCall, tcs = pre.map finalize_tool_call)
    (i : Nat) (tcs : List ToolCall) (r : Option String) (u : BilledUsage)
    (h : Delta.final i tcs r u ∈ (streamLoop c s ds events).2.2) :
    ∃ pre : List ToolCall, tcs = pre.map finalize_tool_call := by
  induction events generalizing c s ds with
  | nil => exact hds i tcs r u h
  | cons e es ih =>
      refine ih _ _ _ ?_ h
      intro i' tcs' r' u' hmem
      rcases List.mem_append.mp hmem with hm | hm
      · exact hds i' tcs' r' u' hm
      · exact final_mem_step c s e i' tcs' r' u' hm

end Anthropic

namespace Anthropic

/-- adjacency relation for claim 5 -/
def noAdjAssistant (a b : EncodedMsg) : Prop :=
  ¬(a.role = "assistant" ∧ b.role = "assistant")

theorem convStep_chain (c : ReasoningCache) (hasTool : Bool) (acc : List EncodedMsg)
    (m : PromptMsg) (h : List.Chain' noAdjAssistant acc) :
    List.Chain' noAdjAssistant (convStep c hasTool acc m) := by
  cases m with
  | system _ => exact h
  | user s =>
      refine List.Chain'.append h (List.chain'_singleton _) ?_
      intro a _ y hy
      simp only [List.head?_cons, Option.mem_def, Option.some.injEq] at hy
      subst hy
      intro ⟨_, h2⟩
      simp at h2
  | userParts ts =>
      refine List.Chain'.append h (List.chain'_singleton _) ?_
      intro a _ y hy
      simp only [List.head?_cons, Option.mem_def, Option.some.injEq] at hy
      subst hy
      intro ⟨_, h2⟩
      simp at h2
  | tool s tid =>
      refine List.Chain'.append h (List.chain'_singleton _) ?_
      intro a _ y hy
      simp only [List.head?_cons, Option.mem_def, Option.some.injEq] at hy
      subst hy
      intro ⟨_, h2⟩
      simp at h2
  | assistant content tcs =>
      simp only [convStep]
      cases hlast : acc.getLast? with
      | none =>
          have hnil : acc = [] := List.getLast?_eq_none_iff.mp hlast
          subst hnil
          simp
      | some last =>
          by_cases hrole : last.role = "assistant"
          · simp only [hrole, if_true]
            have hdec : acc.dropLast ++ [last] = acc :=
              List.dropLast_append_getLast? last hlast
            rw [← hdec] at h
            rcases List.chain'_append.mp h with ⟨h1, _, h3⟩
            refine List.Chain'.append h1 (List.chain'_singleton _) ?_
            intro a ha y hy
            simp only [List.head?_cons, Option.mem_def, Option.some.injEq] at hy
            subst hy
            have := h3 a ha last (by simp)
            intro ⟨ha2, _⟩
            exact this ⟨ha2, hrole⟩
          · simp only [hrole, if_false]
            refine List.Chain'.append h (List.chain'_singleton _) ?_
            intro a ha y hy
            simp only [List.head?_cons, Option.mem_def, Option.some.injEq] at hy
            subst hy
            rw [hlast] at ha
            simp only [Option.mem_def, Option.some.injEq] at ha
            subst ha
            intro ⟨h1, _⟩
            exact hrole h1

end Anthropic

namespace Anthropic

theorem conv_fold_chain (c : ReasoningCache) (hasTool : Bool) (msgs : List PromptMsg)
    (acc : List EncodedMsg) (h : List.Chain' noAdjAssistant acc) :
    List.Chain' noAdjAssistant (msgs.foldl (convStep c hasTool) acc) := by
  induction msgs generalizing acc with
  | nil => exact h
  | cons m ms ih => exact ih _ (convStep_chain c hasTool acc m h)

/-- prefix invariant -/
def cachePrefixed (c : ReasoningCache) (hasTool : Bool) (e : EncodedMsg) : Prop :=
  e.role = "assistant" → ∃ l : List ContentItem,
    e.content = .items l ∧ isInitialSegment (cacheReinsertItems c hasTool) l = true

theorem convStep_prefixed (c : ReasoningCache) (hasTool : Bool) (acc : List EncodedMsg)
    (m : PromptMsg) (h : ∀ e ∈ acc, cachePrefixed c hasTool e) :
    ∀ e ∈ convStep c hasTool acc m, cachePrefixed c hasTool e := by
  cases m with
  | system _ => exact h
  | user s =>
      intro e he
      rcases List.mem_append.mp he with hm | hm
      · exact h e hm
      · simp only [List.mem_singleton] at hm
        subst hm
        intro hrole
        simp at hrole
  | userParts ts =>
      intro e he
      rcases List.mem_append.mp he with hm | hm
      · exact h e hm
      · simp only [List.mem_singleton] at hm
        subst hm
        intro hrole
        simp at hrole
  | tool s tid =>
      intro e he
      rcases List.mem_append.mp he with hm | hm
      · exact h e hm
      · simp only [List.mem_singleton] at hm
        subst hm
        intro hrole
        simp at hrole
  | assistant content tcs =>
      simp only [convStep]
      cases hlast : acc.getLast? with
      | none =>
          intro e he
          rcases List.mem_append.mp he with hm | hm
          · exact h e hm
          · simp only [List.mem_singleton] at hm
            subst hm
            intro _
            exact ⟨assistantItems c hasTool content tcs, rfl,
              isInitialSegment_append_self _ _⟩
      | some last =>
          by_cases hrole : last.role = "assistant"
          · simp only [hrole, if_true]
            intro e he
            rcases List.mem_append.mp he with hm | hm
            · exact h e (List.mem_of_mem_dropLast hm)
            · simp only [List.mem_singleton] at hm
              subst hm
              intro _
              have hmem : last ∈ acc := by
                have hdec : acc.dropLast ++ [last] = acc :=
                  List.dropLast_append_getLast? last hlast
                rw [← hdec]
                simp
              obtain ⟨l, hl, hseg⟩ := h last hmem hrole
              refine ⟨l ++ assistantItems c hasTool content tcs, ?_, ?_⟩
              · simp [hl, extendItems]
              · exact isInitialSegment_mono _ hseg
          · simp only [hrole, if_false]
            intro e he
            rcases List.mem_append.mp he with hm | hm
            · exact h e hm
            · simp only [List.mem_singleton] at hm
              subst hm
              intro _
              exact ⟨assistantItems c hasTool content tcs, rfl,
                isInitialSegment_append_self _ _⟩

theorem convStep_keeps_assistant (c : ReasoningCache) (hasTool : Bool)
    (acc : List EncodedMsg) (m : PromptMsg)
    (h : ∃ e ∈ acc, e.role = "assistant") :
    ∃ e ∈ convStep c hasTool acc m, e.role = "assistant" := by
  obtain ⟨e, he, hrole⟩ := h
  cases m with
  | system _ => exact ⟨e, he, hrole⟩
  | user s => exact ⟨e, List.mem_append_left _ he, hrole⟩
  | userParts ts => exact ⟨e, List.mem_append_left _ he, hrole⟩
  | tool s tid => exact ⟨e, List.mem_append_left _ he, hrole⟩
  | assistant content tcs =>
      simp only [convStep]
      cases hlast : acc.getLast? with
      | none =>
          exact ⟨⟨"assistant", .items (assistantItems c hasTool content tcs)⟩,
            List.mem_append_right _ (List.mem_singleton.mpr rfl), rfl⟩
      | some last =>
          by_cases hrole2 : last.role = "assistant"
          · simp only [hrole2, if_true]
            exact ⟨⟨"assistant", extendItems last.content (assistantItems c hasTool content tcs)⟩,
              List.mem_append_right _ (List.mem_singleton.mpr rfl), rfl⟩
          · simp only [hrole2, if_false]
            exact ⟨⟨"assistant", .items (assistantItems c hasTool content tcs)⟩,
              List.mem_append_right _ (List.mem_singleton.mpr rfl), rfl⟩

theorem convStep_adds_assistant (c : ReasoningCache) (hasTool : Bool)
    (acc : List EncodedMsg) (content : String) (tcs : List ToolCall) :
    ∃ e ∈ convStep c hasTool acc (.assistant content tcs), e.role = "assistant" := by
  simp only [convStep]
  cases hlast : acc.getLast? with
  | none =>
      exact ⟨⟨"assistant", .items (assistantItems c hasTool content tcs)⟩,
        List.mem_append_right _ (List.mem_singleton.mpr rfl), rfl⟩
  | some last =>
      by_cases hrole2 : last.role = "assistant"
      · simp only [hrole2, if_true]
        exact ⟨⟨"assistant", extendItems last.content (assistantItems c hasTool content tcs)⟩,
          List.mem_append_right _ (List.mem_singleton.mpr rfl), rfl⟩
      · simp only [hrole2, if_false]
        exact ⟨⟨"assistant", .items (assistantItems c hasTool content tcs)⟩,
          List.mem_append_right _ (List.mem_singleton.mpr rfl), rfl⟩

theorem conv_fold_prefixed (c : ReasoningCache) (hasTool : Bool) (msgs : List PromptMsg)
    (acc : List EncodedMsg) (h : ∀ e ∈ acc, cachePrefixed c hasTool e) :
    ∀ e ∈ msgs.foldl (convStep c hasTool) acc, cachePrefixed c hasTool e := by
  induction msgs generalizing acc with
  | nil => exact h
  | cons m ms ih => exact ih _ (convStep_prefixed c hasTool acc m h)

theorem conv_fold_exists (c : ReasoningCache) (hasTool : Bool) (msgs : List PromptMsg)
    (acc : List EncodedMsg)
    (h : (∃ e ∈ acc, e.role = "assistant") ∨ msgs.any isAssistantPrompt = true) :
    ∃ e ∈ msgs.foldl (convStep c hasTool) acc, e.role = "assistant" := by
  induction msgs generalizing acc with
  | nil =>
      rcases h with h | h
      · exact h
      · simp at h
  | cons m ms ih =>
      rcases h with h | h
      · exact ih _ (Or.inl (convStep_keeps_assistant c hasTool acc m h))
      · simp only [List.any_cons, Bool.or_eq_true] at h
        rcases h with h | h
        · cases m <;> simp [isAssistantPrompt] at h
          exact ih _ (Or.inl (convStep_adds_assistant c hasTool acc _ _))
        · exact ih _ (Or.inr h)

end Anthropic

namespace Anthropic

theorem respStep_fold (blocks : List RespBlock) (cacc : ReasoningCache)
    (macc : AssistantMsg) :
    (blocks.foldl respStep (cacc, macc)).1 =
      ⟨cacc.previous_thinking_blocks ++ response_thinking_blocks blocks,
       cacc.previous_redacted_thinking_blocks + response_redacted_count blocks⟩ := by
  induction blocks generalizing cacc macc with
  | nil => simp [response_thinking_blocks, response_redacted_count]
  | cons b bs ih =>
      cases b <;>
        simp [respStep, response_thinking_blocks, response_redacted_count,
          List.filterMap_cons, List.countP_cons, ih, List.append_assoc] <;>
        omega

theorem isEmpty_false_of_ne_nil {α : Type} {l : List α} (h : l ≠ []) :
    l.isEmpty = false := by
  cases hl : l with
  | nil => exact absurd hl h
  | cons x xs => rfl

theorem stop_cache (c : ReasoningCache) (s : StreamState)
    (hf : fallback_condition s = false) :
    (handleStreamEvent c s .messageStop).1 =
      ⟨if !s.tool_calls.isEmpty && !s.current_thinking_blocks.isEmpty then
          s.current_thinking_blocks
        else c.previous_thinking_blocks,
       if !s.tool_calls.isEmpty && (s.current_redacted_thinking_blocks != 0) then
          s.current_redacted_thinking_blocks
        else c.previous_redacted_thinking_blocks⟩ := by
  obtain ⟨fac, rm, itok, otok, fr, ix, tcs, cbt, cbi, ctn, cti, ctp, ctb, crb, ccit, crit⟩ := s
  simp only [handleStreamEvent, hf]
  simp

end Anthropic

namespace Anthropic

/-! ## Claims -/

/-- C1 (amended).  The usage reconciler: for the non-streaming handler with
nonzero raw counts, billed input equals
`raw_input + (cache_write + cache_write / 4) + cache_read / 10` with absent
cache metrics defaulting to zero, and billed output equals the raw output;
the streaming stop step computes the same formula unconditionally on the
tracked raw counts; the worked example `1000 / 200 / 500` bills `1300`;
and with both cache metrics zero the billed input equals the raw input.
(The amendment restricts the non-streaming half to nonzero raw counts:
a zero raw count there falls back to a locally computed estimate, see
the counterexample.) -/
theorem claim1_usage_reconciler (input output est_prompt est_completion : Nat)
    (cw cr : Option Nat) (h1 : input ≠ 0) (h2 : output ≠ 0) :
    (nonstream_usage input output cw cr est_prompt est_completion =
      ⟨input + (cw.getD 0 + cw.getD 0 / 4) + cr.getD 0 / 10, output⟩)
    ∧ (∀ c s, finalUsages (handleStreamEvent c s .messageStop).2.2 =
        [⟨s.input_tokens + (s.cache_creation_input_tokens +
            s.cache_creation_input_tokens / 4) + s.cache_read_input_tokens / 10,
          s.output_tokens⟩])
    ∧ cacheAdjust 1000 200 500 = 1300
    ∧ (∀ i, cacheAdjust i 0 0 = i) := by
  refine ⟨?_, ?_, by decide, fun i => by simp [cacheAdjust_eq]⟩
  · simp [nonstream_usage, h1, h2, cacheAdjust_eq]
  · intro c s
    rw [stop_usages]
    simp [cacheAdjust_eq]

/-- C1 witness: the reconciler theorem applied at raw counts 1000 / 5 with
cache write 200 and cache read 500. -/
theorem claim1_usage_reconciler_witness :
    ((1000 : Nat) ≠ 0) ∧ ((5 : Nat) ≠ 0) ∧
    ((nonstream_usage 1000 5 (some 200) (some 500) 0 0 =
        ⟨1000 + ((some 200 : Option Nat).getD 0 + (some 200 : Option Nat).getD 0 / 4) +
          (some 500 : Option Nat).getD 0 / 10, 5⟩)
      ∧ (∀ c s, finalUsages (handleStreamEvent c s .messageStop).2.2 =
          [⟨s.input_tokens + (s.cache_creation_input_tokens +
              s.cache_creation_input_tokens / 4) + s.cache_read_input_tokens / 10,
            s.output_tokens⟩])
      ∧ cacheAdjust 1000 200 500 = 1300
      ∧ (∀ i, cacheAdjust i 0 0 = i)) :=
  ⟨by decide, by decide,
   claim1_usage_reconciler 1000 5 0 0 (some 200) (some 500) (by decide) (by decide)⟩

/-- C1 counterexample.  In the non-streaming handler a zero raw count is
replaced by the local token estimate before adjustment (Python
`usage.input_tokens or get_num_tokens(...)`), so with raw input 0,
no cache metrics and estimate 7 the billed input is 7, not the claimed
`0 + (0 + 0 / 4) + 0 / 10 = 0`; likewise a zero raw output count is
replaced by an estimate. -/
theorem claim1_zero_raw_fallback_cex :
    (nonstream_usage 0 5 none none 7 9).prompt_tokens ≠ 0 + (0 + 0 / 4) + 0 / 10 ∧
    (nonstream_usage 5 0 none none 7 9).completion_tokens ≠ 0 := by decide

/-- C2 (code bug).  The tool-argument buffer `current_tool_params` is
shared between tool calls and never reset when a new `tool_use` block
opens: on the stream
open ToolUse(T1, f1), fragment "A", open ToolUse(T2, f2), fragment "B",
stop, the final delta carries T2 with arguments "AB" — the concatenation
of both calls' fragments — where the claim requires exactly "B".
(Fragments are still never forwarded mid-stream: the only deltas are the
terminal one.) -/
theorem claim2_shared_argument_buffer :
    (handle_chat_generate_stream_response emptyCache false
      [.blockStart (.toolUse (some "f1") (some "T1")),
       .blockDelta 0 (.inputJsonDelta (some "A")),
       .blockStart (.toolUse (some "f2") (some "T2")),
       .blockDelta 1 (.inputJsonDelta (some "B")),
       .messageStop]).2.2 =
      [Delta.final 1 [⟨"T1", "f1", "A"⟩, ⟨"T2", "f2", "AB"⟩] none ⟨0, 0⟩] ∧
    ("AB" : String) ≠ "B" := ⟨rfl, by decide⟩

/-- C3 (code bug).  A Reasoning block followed by a ToolUse block emits
TWO closing boundary deltas, not exactly one: the index change closes the
block, but `current_block_type` is never cleared (an `input_json_delta`
payload matches none of the type-setting branches), so the
`MessageStopEvent` handler emits a second `\n</think>`. -/
theorem claim3_double_close_boundary :
    ((handle_chat_generate_stream_response emptyCache false
      [.blockStart .thinking,
       .blockDelta 0 (.thinkingDelta (some "abc")),
       .blockStart (.toolUse (some "lookup") (some "T1")),
       .blockDelta 1 (.inputJsonDelta (some "x")),
       .messageStop]).2.2 =
      [Delta.content 0 think_open, Delta.content 0 "abc",
       Delta.content 0 think_close, Delta.content 1 think_close,
       Delta.final 1 [⟨"T1", "lookup", "x"⟩] none ⟨0, 0⟩]) ∧
    ((handle_chat_generate_stream_response emptyCache false
      [.blockStart .thinking,
       .blockDelta 0 (.thinkingDelta (some "abc")),
       .blockStart (.toolUse (some "lookup") (some "T1")),
       .blockDelta 1 (.inputJsonDelta (some "x")),
       .messageStop]).2.2.countP fun d =>
        match d with
        | Delta.content _ t => t == think_close
        | _ => false) = 2 := ⟨rfl, rfl⟩

/-- The conclusion of claim C4, for a stream-end step from state `s` with
session cache `c` followed by the encoding of the next request `msgs`:
the produced thinking blocks (and the redacted count) are stored in the
cache at the stop step; when the next request contains a `ToolResult`
message the cache survives `_chat_generate` and every encoded
assistant-role entry starts with the reinserted cache items (one exists
whenever the request replays an assistant turn); when it contains no
`ToolResult` message the cache is left empty. -/
def Claim4Statement (c : ReasoningCache) (s : StreamState)
    (msgs : List PromptMsg) : Prop :=
  (s.current_thinking_blocks ≠ [] →
    ((handleStreamEvent c s .messageStop).1).previous_thinking_blocks =
      s.current_thinking_blocks) ∧
  (s.current_redacted_thinking_blocks ≠ 0 →
    ((handleStreamEvent c s .messageStop).1).previous_redacted_thinking_blocks =
      s.current_redacted_thinking_blocks) ∧
  (msgs.any isToolPrompt = true →
    (chat_generate_prepare (handleStreamEvent c s .messageStop).1 msgs).2 =
        (handleStreamEvent c s .messageStop).1
      ∧ (∀ e ∈ (chat_generate_prepare (handleStreamEvent c s .messageStop).1 msgs).1,
          cachePrefixed (handleStreamEvent c s .messageStop).1 true e)
      ∧ (msgs.any isAssistantPrompt = true →
          ∃ e ∈ (chat_generate_prepare (handleStreamEvent c s .messageStop).1 msgs).1,
            e.role = "assistant")) ∧
  (msgs.any isToolPrompt = false →
    (chat_generate_prepare (handleStreamEvent c s .messageStop).1 msgs).2 = emptyCache)

/-- C4.  A streamed turn that produced at least one tool call and at least
one reasoning (or redacted-reasoning) segment stores those segments in
the session cache at the stream-end step; at the next request the
encoding reinserts the cached segments at the head of every replayed
assistant turn's content when the request contains a `ToolResult`
message, and the cache is left empty when it does not. -/
theorem claim4_reasoning_cache_roundtrip (c : ReasoningCache) (s : StreamState)
    (msgs : List PromptMsg) (h1 : s.tool_calls ≠ [])
    (h2 : s.current_thinking_blocks ≠ [] ∨ s.current_redacted_thinking_blocks ≠ 0) :
    Claim4Statement c s msgs := by
  have hte : s.tool_calls.isEmpty = false := isEmpty_false_of_ne_nil h1
  have hfb : fallback_condition s = false := by
    unfold fallback_condition
    simp [hte]
  unfold Claim4Statement
  rw [stop_cache c s hfb]
  refine ⟨?_, ?_, ?_, ?_⟩
  · intro hb
    simp [hte, isEmpty_false_of_ne_nil hb]
  · intro hb
    simp [hte, hb]
  · intro hT
    refine ⟨by simp [chat_generate_prepare, hT], ?_, ?_⟩
    · intro e he
      simp only [chat_generate_prepare] at he
      unfold convert_prompt_messages at he
      rw [hT] at he
      exact conv_fold_prefixed _ true msgs [] (by intro e' he'; cases he') e he
    · intro hA
      simp only [chat_generate_prepare]
      unfold convert_prompt_messages
      rw [hT]
      exact conv_fold_exists _ true msgs [] (Or.inr hA)
  · intro hF
    simp [chat_generate_prepare, hF]

/-- A concrete stream-end state — one recorded tool call, one accumulated
thinking block — used to witness the C4 round-trip theorem. -/
def sampleStopState : StreamState :=
  { initStreamState with
      tool_calls := [⟨"T", "f", "x"⟩]
      current_thinking_blocks := [⟨"why", "sig"⟩] }

/-- C4 witness: the round-trip theorem applied at a stop state holding one
tool call and one thinking block, followed by a request consisting of a
user turn, the replayed assistant turn, and a tool-result turn. -/
theorem claim4_reasoning_cache_roundtrip_witness :
    (sampleStopState.tool_calls ≠ []) ∧
    (sampleStopState.current_thinking_blocks ≠ [] ∨
      sampleStopState.current_redacted_thinking_blocks ≠ 0) ∧
    Claim4Statement emptyCache sampleStopState
      [.user "hi", .assistant "" [⟨"T", "f", "x"⟩], .tool "res" "T"] :=
  ⟨by decide, Or.inl (by decide),
   claim4_reasoning_cache_roundtrip emptyCache _ _ (by decide) (Or.inl (by decide))⟩

/-- C5 (amended).  Only consecutive assistant messages are coalesced: the
encoded payload never contains two adjacent role-"assistant" entries.
Consecutive user or tool-result messages are not coalesced (see the
counterexample), so strict role alternation does not hold in general. -/
theorem claim5_assistant_coalescing (c : ReasoningCache) (msgs : List PromptMsg) :
    List.Chain' noAdjAssistant (convert_prompt_messages c msgs) := by
  unfold convert_prompt_messages
  exact conv_fold_chain c _ msgs [] (by simp)

/-- C5 counterexample.  Two consecutive user messages encode as two
adjacent entries that share the role "user", so the encoded payload does
not exhibit strict role alternation. -/
theorem claim5_adjacent_user_roles_cex :
    ¬ List.Chain' (fun a b : EncodedMsg => a.role ≠ b.role)
      (convert_prompt_messages emptyCache [.user "a", .user "b"]) := by
  have h : convert_prompt_messages emptyCache [.user "a", .user "b"] =
      [⟨"user", .str "a"⟩, ⟨"user", .str "b"⟩] := by rfl
  rw [h]
  simp [List.chain'_cons]

/-- C6 (amended).  The defensive synthesis branch is unreachable: its
guard requires the last recorded open event to have carried both a name
and an id while the tool-call list is empty, but any open event carrying
both always records a tool call, so after consuming any event prefix the
guard evaluates to false and the stream-end step emits exactly the
recorded tool calls (finalized) — an argument buffer never tied to a
recorded open event is dropped, not synthesized. -/
theorem claim6_fallback_unreachable (c : ReasoningCache) (hasTool : Bool)
    (events : List StreamEvent) :
    fallback_condition (handle_chat_generate_stream_response c hasTool events).2.1 = false
    ∧ finalToolCallLists
        (handleStreamEvent (handle_chat_generate_stream_response c hasTool events).1
          (handle_chat_generate_stream_response c hasTool events).2.1 .messageStop).2.2 =
      [(handle_chat_generate_stream_response c hasTool events).2.1.tool_calls.map
        finalize_tool_call] := by
  have hg := good_loop events (if hasTool then c else emptyCache) initStreamState [] good_init
  have hf : fallback_condition
      (handle_chat_generate_stream_response c hasTool events).2.1 = false :=
    fallback_condition_false_of_good _ hg
  exact ⟨hf, stop_toolcalls _ _ hf⟩

/-- C6 counterexample.  An open event with a name but no id records no
tool call; the subsequent fragment leaves a non-empty argument buffer
("x") tied to no recorded call, and the final delta carries no tool-call
record at all — the buffer is dropped, not emitted as a synthetic
record. -/
theorem claim6_untied_buffer_dropped_cex :
    (handle_chat_generate_stream_response emptyCache false
      [.blockStart (.toolUse (some "f") none),
       .blockDelta 0 (.inputJsonDelta (some "x")),
       .messageStop]).2.1.current_tool_params = "x" ∧
    (handle_chat_generate_stream_response emptyCache false
      [.blockStart (.toolUse (some "f") none),
       .blockDelta 0 (.inputJsonDelta (some "x")),
       .messageStop]).2.2 = [Delta.final 1 [] none ⟨0, 0⟩] := ⟨rfl, rfl⟩

/-- C7 (amended).  Extended output, token-efficient tool calling and
multi-document input each append their token to the combined
`anthropic-beta` value, but the long-output branch assigns instead of
appending; whenever long-output mode is not triggered, the header value
is exactly the comma-joined tokens of the required features in
application order. -/
theorem claim7_beta_header_appends (model : String) (eo ht : Bool) (mt : Nat)
    (hd : Bool) (h : ¬(model = "claude-3-5-sonnet-20240620" ∧ 4096 < mt)) :
    computeBetaHeader model eo ht mt hd = joinBeta (specBetaTokens model eo ht mt hd) := by
  have h3 : (model == "claude-3-5-sonnet-20240620" && decide (4096 < mt)) = false := by
    cases hmt : decide (4096 < mt) with
    | false => simp
    | true =>
        have hlt : 4096 < mt := of_decide_eq_true hmt
        have hne : model ≠ "claude-3-5-sonnet-20240620" := fun he => h ⟨he, hlt⟩
        simp [hne]
  cases eo <;> cases hd <;>
    cases h2 : (model == "claude-3-7-sonnet-20250219" && ht) <;>
      simp [computeBetaHeader, specBetaTokens, joinBeta, appendBeta, h2, h3,
        String.intercalate] <;> rfl

/-- C7 witness: the header theorem applied to the token-efficient model
with extended output, tools and a document part — all three tokens appear
comma-joined. -/
theorem claim7_beta_header_appends_witness :
    (¬(("claude-3-7-sonnet-20250219" : String) = "claude-3-5-sonnet-20240620" ∧
        4096 < 0)) ∧
    computeBetaHeader "claude-3-7-sonnet-20250219" true true 0 true =
      joinBeta (specBetaTokens "claude-3-7-sonnet-20250219" true true 0 true) :=
  ⟨by decide, claim7_beta_header_appends _ true true 0 true (by decide)⟩

/-- C7 counterexample.  On `claude-3-5-sonnet-20240620` with extended
output requested and `max_tokens` 8192, the long-output assignment
overwrites the already-appended extended-output token, so the header
differs from the additive combination the claim requires. -/
theorem claim7_overwrite_cex :
    computeBetaHeader "claude-3-5-sonnet-20240620" true false 8192 false ≠
      joinBeta (specBetaTokens "claude-3-5-sonnet-20240620" true false 8192 false) ∧
    computeBetaHeader "claude-3-5-sonnet-20240620" true false 8192 false =
      some "max-tokens-3-5-sonnet-2024-07-15" := by decide

/-- C8.  Every tool call carried by any terminal delta of any consumed
event prefix is the finalization of a recorded call: a call whose
accumulated argument buffer is empty is emitted with arguments equal to
the empty-object literal, and no emitted arguments string is ever the
empty string (the arguments field is a total string, never null). -/
theorem claim8_empty_arguments_finalized (c : ReasoningCache) (hasTool : Bool)
    (events : List StreamEvent) (i : Nat) (tcs : List ToolCall)
    (r : Option String) (u : BilledUsage)
    (h : Delta.final i tcs r u ∈
      (handle_chat_generate_stream_response c hasTool events).2.2) :
    (∃ pre : List ToolCall, tcs = pre.map finalize_tool_call) ∧
    ∀ tc ∈ tcs, tc.arguments ≠ "" := by
  have hex : ∃ pre : List ToolCall, tcs = pre.map finalize_tool_call :=
    streamLoop_final_mem events _ initStreamState []
      (by intro _ _ _ _ hh; simp at hh) i tcs r u h
  refine ⟨hex, ?_⟩
  obtain ⟨pre, rfl⟩ := hex
  intro tc htc
  obtain ⟨tc0, _, rfl⟩ := List.mem_map.mp htc
  exact finalize_arguments_ne tc0

/-- C8 witness: a tool call opened with no argument fragments is emitted
in the terminal delta with arguments equal to the empty-object
literal. -/
theorem claim8_empty_arguments_finalized_witness :
    (Delta.final 1 [⟨"T", "f", "\x7b\x7d"⟩] none ⟨0, 0⟩ ∈
      (handle_chat_generate_stream_response emptyCache false
        [.blockStart (.toolUse (some "f") (some "T")), .messageStop]).2.2) ∧
    ((∃ pre : List ToolCall,
        [(⟨"T", "f", "\x7b\x7d"⟩ : ToolCall)] = pre.map finalize_tool_call) ∧
      ∀ tc ∈ ([⟨"T", "f", "\x7b\x7d"⟩] : List ToolCall), tc.arguments ≠ "") := by
  have he : (handle_chat_generate_stream_response emptyCache false
      [.blockStart (.toolUse (some "f") (some "T")), .messageStop]).2.2 =
      [Delta.final 1 [⟨"T", "f", "\x7b\x7d"⟩] none ⟨0, 0⟩] := rfl
  have hm : Delta.final 1 [(⟨"T", "f", "\x7b\x7d"⟩ : ToolCall)] none ⟨0, 0⟩ ∈
      (handle_chat_generate_stream_response emptyCache false
        [.blockStart (.toolUse (some "f") (some "T")), .messageStop]).2.2 := by
    rw [he]
    exact List.mem_singleton.mpr rfl
  exact ⟨hm, claim8_empty_arguments_finalized _ _ _ _ _ _ _ hm⟩

/-- C9 (amended).  While events are being consumed the session cache is
written only at the `MessageStopEvent` step; however the handler prologue
(run when the first delta is pulled) clears the cache when the request
contains no `ToolPromptMessage`.  Hence abandoning any event prefix that
contains no stop event leaves the cache in its post-prologue state:
unchanged when the request contains a tool message, empty otherwise —
never a half-applied mutation. -/
theorem claim9_cache_stable_without_stop (c : ReasoningCache) (hasTool : Bool)
    (events : List StreamEvent)
    (h : ∀ e ∈ events, e ≠ StreamEvent.messageStop) :
    (handle_chat_generate_stream_response c hasTool events).1 =
      if hasTool then c else emptyCache := by
  show (streamLoop (if hasTool then c else emptyCache) initStreamState [] events).1 = _
  exact streamLoop_cache_eq events _ initStreamState [] h

/-- C9 witness: the stability theorem applied to a one-event prefix (a
message-start event) of a pass whose request holds no tool message. -/
theorem claim9_cache_stable_without_stop_witness :
    (∀ e ∈ [StreamEvent.messageStart "m" 5 none none],
      e ≠ StreamEvent.messageStop) ∧
    (handle_chat_generate_stream_response ⟨[⟨"t", "s"⟩], 0⟩ false
        [StreamEvent.messageStart "m" 5 none none]).1 =
      if false then (⟨[⟨"t", "s"⟩], 0⟩ : ReasoningCache) else emptyCache :=
  ⟨by decide, claim9_cache_stable_without_stop _ false _ (by decide)⟩

/-- C9 counterexample.  Abandoning a pass after a single non-stop event
does NOT leave the cache exactly as it was when the pass began: the
prologue of a pass whose request holds no tool message already cleared
the nonempty entry cache. -/
theorem claim9_prologue_clears_cex :
    (handle_chat_generate_stream_response ⟨[⟨"t", "s"⟩], 0⟩ false
      [.messageStart "m" 5 none none]).1 ≠ ⟨[⟨"t", "s"⟩], 0⟩ ∧
    (∀ e ∈ [StreamEvent.messageStart "m" 5 none none],
      e ≠ StreamEvent.messageStop) := by decide

/-- C10.  The non-streaming handler first empties the cross-turn
reasoning cache and then stores every thinking and redacted-thinking
block of the response into it unconditionally: the resulting cache is
exactly the response's thinking blocks and redacted count — independent
of the entry cache and of whether the response contains tool calls. -/
theorem claim10_nonstream_cache_unconditional (c : ReasoningCache)
    (blocks : List RespBlock) :
    (handle_chat_generate_response c blocks).1 =
      ⟨response_thinking_blocks blocks, response_redacted_count blocks⟩ ∧
    (handle_chat_generate_response c blocks).1 =
      (handle_chat_generate_response emptyCache blocks).1 := by
  constructor
  · show (blocks.foldl respStep (emptyCache, ⟨"", []⟩)).1 = _
    rw [respStep_fold]
    simp [emptyCache]
  · rfl

end Anthropic
